import Mathlib

/-!
Shallow embedding of the region-forge geometry and YAML codec core
(`src/utils/polygonUtils.ts`, `src/utils/exportUtils.ts`,
`src/utils/villageUtils.ts`, `src/components/AdvancedPanel.tsx`),
with theorems checking the natural-language specification against it.

Conventions of the embedding:
* JavaScript numbers are embedded as exact rationals (`ℚ`); the source
  performs plain real arithmetic (no overflow-sensitive integer ops).
* Where the source compares Euclidean distances obtained via
  `Math.hypot`/`Math.sqrt`, the embedding compares squared distances.
  Both operands are non-negative, and squaring is strictly monotone on
  non-negative reals, so every comparison (`<`, `>`, maxima) has the
  same truth value; this keeps all definitions inside `ℚ` and
  executable.
* Stateful UI callbacks (toast, file download, `Math.random`,
  `new Date()`) are factored out as explicit parameters or dropped when
  they do not influence the produced text.
-/

/-- A 2-D point in Minecraft X/Z plane coordinates (`{x, z}` objects in the
source). -/
structure Point where
  x : ℚ
  z : ℚ
deriving DecidableEq, Repr

/-- Squared Euclidean distance between two points.  The source computes
`Math.hypot (px - qx) (pz - qz)`; all of its uses are order comparisons,
which squared distance decides identically. -/
def distSq (p q : Point) : ℚ :=
  (p.x - q.x) ^ 2 + (p.z - q.z) ^ 2

/-- JavaScript `Math.round`: round half towards positive infinity. -/
def jsRound (q : ℚ) : ℤ :=
  ⌊q + 1 / 2⌋

/-! ### `resizeRegionPoints` (polygonUtils.ts lines 303-326) -/

/-- Scale each point's offset from a given center by `scaleFactor`.
Source: `if (points.length === 0 || scaleFactor <= 0) return points`,
else map each point to `center + (p - center) * scaleFactor`. -/
def resizeRegionPoints (points : List Point) (centerX centerZ scaleFactor : ℚ) :
    List Point :=
  if points.length = 0 ∨ scaleFactor ≤ 0 then points
  else points.map fun p =>
    ⟨centerX + (p.x - centerX) * scaleFactor, centerZ + (p.z - centerZ) * scaleFactor⟩

/-! ### `doublePolygonVertices` / `halvePolygonVertices`
(polygonUtils.ts lines 358-391) -/

/-- Midpoint of two points (the `{x: (a.x+b.x)/2, z: (a.z+b.z)/2}` the
source pushes between consecutive vertices). -/
def midpointPt (a b : Point) : Point :=
  ⟨(a.x + b.x) / 2, (a.z + b.z) / 2⟩

/-- Loop body of `doublePolygonVertices`: for each vertex push it and the
midpointPt to its successor; the successor of the final vertex wraps to the
first vertex of the polygon, carried here as `first`. -/
def doubleAux : List Point → Point → List Point
  | [], _ => []
  | [a], first => [a, midpointPt a first]
  | a :: b :: rest, first => a :: midpointPt a b :: doubleAux (b :: rest) first

/-- Insert a midpointPt between every consecutive pair of polygon vertices
(including the wrap-around edge).  Source returns the input unchanged for
fewer than 2 points. -/
def doublePolygonVertices (points : List Point) : List Point :=
  if points.length < 2 then points
  else
    match points with
    | [] => []
    | p :: rest => doubleAux (p :: rest) p

/-- Keep the vertices at even indices (`i % 2 === 0` in the source loop). -/
def keepEvenIdx : List Point → List Point
  | [] => []
  | [a] => [a]
  | a :: _ :: rest => a :: keepEvenIdx rest

/-- Remove every other vertex; if fewer than 3 survive, backfill with the
odd-indexed vertices `points[(2*i+1) % n]`; no-op for `≤ 3` points. -/
def halvePolygonVertices (points : List Point) : List Point :=
  if points.length ≤ 3 then points
  else
    let kept := keepEvenIdx points
    if kept.length < 3 then
      kept ++ (List.range (3 - kept.length)).map
        (fun i => points.getD ((2 * i + 1) % points.length) ⟨0, 0⟩)
    else kept

/-! ### `splitPolygon` (polygonUtils.ts lines 453-504) -/

/-- Vertical-line branch of `splitPolygon`: the points with `x <= xLine`. -/
def vertSplitLeft (points : List Point) (xLine : ℚ) : List Point :=
  points.filter fun p => decide (p.x ≤ xLine)

/-- Vertical-line branch of `splitPolygon`: the points with `x > xLine`. -/
def vertSplitRight (points : List Point) (xLine : ℚ) : List Point :=
  points.filter fun p => decide (¬ p.x ≤ xLine)

/-- General branch of `splitPolygon`: signed side of the line
`a*x + b*z + c = 0`; the points with `side <= 0`. -/
def sideSplitLeft (points : List Point) (a b c : ℚ) : List Point :=
  points.filter fun p => decide (a * p.x + b * p.z + c ≤ 0)

/-- General branch of `splitPolygon`: the points with `side > 0`. -/
def sideSplitRight (points : List Point) (a b c : ℚ) : List Point :=
  points.filter fun p => decide (¬ a * p.x + b * p.z + c ≤ 0)

/-- Split a polygon into two parts by the infinite line through the two
split points.  Fewer than 3 input points: `[points, []]`.  If
`|dx| < 1e-10` the vertical-line branch partitions by `x <= xLine` and
returns the two halves directly.  Otherwise the halves are partitioned by
the signed side of the line, and `[points, []]` is returned when either
half has fewer than 3 points. -/
def splitPolygon (points : List Point) (splitPoint1 splitPoint2 : Point) :
    List (List Point) :=
  if points.length < 3 then [points, []]
  else
    let dx := splitPoint2.x - splitPoint1.x
    let dz := splitPoint2.z - splitPoint1.z
    if |dx| < 1 / 10000000000 then
      [vertSplitLeft points splitPoint1.x, vertSplitRight points splitPoint1.x]
    else
      let a := dz
      let b := -dx
      let c := -(a * splitPoint1.x + b * splitPoint1.z)
      let leftPoints := sideSplitLeft points a b c
      let rightPoints := sideSplitRight points a b c
      if leftPoints.length < 3 ∨ rightPoints.length < 3 then [points, []]
      else [leftPoints, rightPoints]

/-! ### `simplifyPolygonVertices` (polygonUtils.ts lines 397-444) -/

/-- Squared perpendicular distance from `p` to the chord `a`-`b`
(`perpendicularDistance` in the source, squared; the source's degenerate
case `dx === 0 && dz === 0` falls back to point distance). -/
def perpDistSq (p a b : Point) : ℚ :=
  let dx := b.x - a.x
  let dz := b.z - a.z
  if dx = 0 ∧ dz = 0 then distSq p a
  else
    let t := ((p.x - a.x) * dx + (p.z - a.z) * dz) / (dx * dx + dz * dz)
    distSq p ⟨a.x + t * dx, a.z + t * dz⟩

/-- The argmax scan of `rdp`: over candidate indices `l`, track the largest
squared deviation (`maxDist`, initially 0) and its first strictly-larger
index (`index`, initially `-1`, embedded as `none`). -/
def scanMax (pts : List Point) (a b : Point) :
    List ℕ → ℚ → Option ℕ → ℚ × Option ℕ
  | [], best, bestIdx => (best, bestIdx)
  | i :: rest, best, bestIdx =>
    let d := perpDistSq (pts.getD i ⟨0, 0⟩) a b
    if best < d then scanMax pts a b rest d (some i)
    else scanMax pts a b rest best bestIdx

/-- The recursive `rdp` pass, returning the set (as a list) of interior
indices whose `keep` flag it sets.  The recursion always descends to a
strictly shorter index span, so `fuel ≥ last - first` makes the 0-fuel
branch unreachable (`rdpRun_fuel_irrel` below); the caller passes the point
count as fuel. -/
def rdpRun (pts : List Point) (epsSq : ℚ) : ℕ → ℕ → ℕ → List ℕ
  | 0, _, _ => []
  | fuel + 1, first, last =>
    match scanMax pts (pts.getD first ⟨0, 0⟩) (pts.getD last ⟨0, 0⟩)
        (List.range' (first + 1) (last - first - 1)) 0 none with
    | (maxD, some index) =>
      if epsSq < maxD then
        index :: (rdpRun pts epsSq fuel first index ++ rdpRun pts epsSq fuel index last)
      else []
    | (_, none) => []

/-- Index-keep predicate of `simplifyPolygonVertices`: the first and last
flags are pre-set, the rest come from the `rdp` pass. -/
def simplifyKeep (pts : List Point) (epsSq : ℚ) (n i : ℕ) : Bool :=
  i = 0 || i = n - 1 || decide (i ∈ rdpRun pts epsSq n 0 (n - 1))

/-- The `simplified` list: the points whose `keep` flag is set, in order
(`open.filter((_, i) => keepFlags[i])` in the source), with the tolerance
clamped to `>= 0` (`Math.max(0, tolerance)`) and squared for comparison
against squared deviations. -/
def simplifyCandidates (points : List Point) (tolerance : ℚ) : List Point :=
  let eps := max 0 tolerance
  let epsSq := eps * eps
  let n := points.length
  ((List.range n).filter (simplifyKeep points epsSq n)).map
    (fun i => points.getD i ⟨0, 0⟩)

/-- Ramer-Douglas-Peucker simplification over the point sequence: the
original input is returned when the input has `<= 3` points or the
simplified result would have fewer than 3. -/
def simplifyPolygonVertices (points : List Point) (tolerance : ℚ) : List Point :=
  if points.length ≤ 3 then points
  else if (simplifyCandidates points tolerance).length < 3 then points
  else simplifyCandidates points tolerance

/-! ### `findClosestPointOnPolygonEdge` (polygonUtils.ts lines 512-553) -/

/-- The point of the segment `a`-`b` at clamped parameter `t`
(`{x: p1.x + t*dx, z: p1.z + t*dz}` in the source). -/
def segPoint (a b : Point) (t : ℚ) : Point :=
  ⟨a.x + t * (b.x - a.x), a.z + t * (b.z - a.z)⟩

/-- Closest point of the segment `a`-`b` to `q`: the clamped parametric
projection `t ∈ [0,1]`; a zero-length segment falls back to the vertex
`a`. -/
def closestOnSegment (q a b : Point) : Point :=
  let dx := b.x - a.x
  let dz := b.z - a.z
  let lengthSq := dx * dx + dz * dz
  if lengthSq = 0 then a
  else
    let t := max 0 (min 1 (((q.x - a.x) * dx + (q.z - a.z) * dz) / lengthSq))
    ⟨a.x + t * dx, a.z + t * dz⟩

/-- One iteration of the source loop: replace the best candidate when the
current edge's closest point is strictly closer (the source tracks
`minDistance`, which always equals the distance to `closestPoint`). -/
def closestStep (point p0 : Point) (polygon : List Point) (best : Point) (i : ℕ) :
    Point :=
  let p1 := polygon.getD i p0
  let p2 := polygon.getD ((i + 1) % polygon.length) p0
  let cand := closestOnSegment point p1 p2
  if distSq point cand < distSq point best then cand else best

/-- Find the closest point on a polygon edge to `point`.  The source
unconditionally reads `polygon[0]` as the initial candidate, so the empty
polygon is outside its domain; the embedding returns `none` there. -/
def findClosestPointOnPolygonEdge (point : Point) (polygon : List Point) :
    Option Point :=
  match polygon with
  | [] => none
  | p0 :: _ =>
    some ((List.range polygon.length).foldl (closestStep point p0 polygon) p0)

/-! ### String helpers shared by the YAML codec

The data model (`src/types.ts` is referenced but not part of the core
source set) is reconstructed from its uses and from the specification's
data-model section.  JavaScript string methods are embedded over
`String.data : List Char`; the region names involved are plain ASCII. -/

/-- JavaScript `toLowerCase` (ASCII range, which covers region names). -/
def lowerStr (s : String) : String :=
  String.mk (s.data.map Char.toLower)

/-- Loop of `replace(/\s+/g, '_')`: each maximal run of whitespace becomes a
single underscore.  `prevWs` records whether the previous character was
whitespace (i.e. whether we are inside a run that already emitted `_`). -/
def squashWs : Bool → List Char → List Char
  | _, [] => []
  | prevWs, c :: rest =>
    if c.isWhitespace then
      if prevWs then squashWs true rest else '_' :: squashWs true rest
    else c :: squashWs false rest

/-- `name.toLowerCase().replace(/\s+/g, '_')` — the `lower_snake_case` key
transform used by every serializer. -/
def snakeName (s : String) : String :=
  String.mk (squashWs false (lowerStr s).data)

/-- `name.replace(/\s+/g, '')` — drop all whitespace (achievement keys). -/
def removeWs (s : String) : String :=
  String.mk (s.data.filter fun c => !c.isWhitespace)

/-- `flags.replace(/\n/g, '\n  ')` — two extra indent spaces after every
newline. -/
def indentAfterNewlines (s : String) : String :=
  String.mk (s.data.foldr (fun c acc => if c = '\n' then '\n' :: ' ' :: ' ' :: acc else c :: acc) [])

/-- Whether `pre` is a prefix of `l` (character lists). -/
def chPre : List Char → List Char → Bool
  | [], _ => true
  | _ :: _, [] => false
  | c :: cs, d :: ds => c = d && chPre cs ds

/-- Whether `needle` occurs as a contiguous run inside `hay`. -/
def chSub (needle : List Char) : List Char → Bool
  | [] => chPre needle []
  | c :: rest => chPre needle (c :: rest) || chSub needle rest

/-- JavaScript `hay.includes(needle)` — substring test. -/
def strHasSub (hay needle : String) : Bool :=
  chSub needle.data hay.data

/-! ### Data model (`src/types.ts`, reconstructed from uses and the spec) -/

/-- The ordered challenge-level enumeration. -/
inductive ChallengeLevel
  | Vanilla | Bronze | Silver | Gold | Platinum
deriving DecidableEq, Repr

/-- The TypeScript string value of a challenge level (the enumeration is a
string union in the source). -/
def ChallengeLevel.text : ChallengeLevel → String
  | .Vanilla => "Vanilla"
  | .Bronze => "Bronze"
  | .Silver => "Silver"
  | .Gold => "Gold"
  | .Platinum => "Platinum"

/-- `getChallengeLevelColor` (polygonUtils.ts lines 5-20); with the closed
five-value union the source's `default` arm is unreachable. -/
def getChallengeLevelColor : ChallengeLevel → String
  | .Vanilla => "§aA safe haven from stronger mobs"
  | .Bronze => "§eMobs here are a little bit stronger"
  | .Silver => "§6Mobs put up a decent fight here"
  | .Gold => "§cMobs here hit hard — be ready"
  | .Platinum => "§4Mobs here are extremely dangerous"

/-- World type option (`'overworld' | 'nether'`). -/
inductive WorldType
  | overworld | nether
deriving DecidableEq, Repr

/-- Greeting size as `generateRegionYAML` declares it
(`'large' | 'small'`; the caller-level `'chat'` value behaves like any
non-`'large'` value in every comparison the function makes). -/
inductive GreetingSize
  | large | small
deriving DecidableEq, Repr

/-- Subregion (village) record. -/
structure Subregion where
  id : String
  name : String
  x : ℚ
  z : ℚ
  radius : ℚ
  type : String
  details : String
  parentRegionId : Option String
deriving DecidableEq, Repr

/-- Region record.  `challengeLevel` is carried as an `Option` because the
source truthiness-checks it (`if (region.challengeLevel)`) before use. -/
structure Region where
  id : String
  name : String
  points : List Point
  centerPoint : Option Point
  challengeLevel : Option ChallengeLevel
  hasSpawn : Bool
  subregions : List Subregion
deriving DecidableEq, Repr

/-! ### Centroid (polygonUtils.ts lines 218-252) -/

/-- Arithmetic mean of the points; `{0,0}` for empty input, the single
point for one input. -/
def calculatePolygonCenter (points : List Point) : Point :=
  if points.length = 0 then ⟨0, 0⟩
  else if points.length = 1 then points.getD 0 ⟨0, 0⟩
  else
    ⟨(points.map Point.x).sum / points.length, (points.map Point.z).sum / points.length⟩

/-- The canonical heart location: the custom `centerPoint` if set, else the
centroid of the polygon. -/
def calculateRegionCenter (region : Region) : Point :=
  match region.centerPoint with
  | some c => c
  | none => calculatePolygonCenter region.points

/-! ### `generateSubregionYAML` (villageUtils.ts lines 94-141) -/

/-- Serialize one village subregion cuboid block.  Villages always use
"Welcome to" phrasing regardless of world type. -/
def generateSubregionYAML (subregion : Subregion) (parentRegionName : String)
    (useModernWorldHeight : Bool) (useGreetingsAndFarewells : Bool)
    (greetingSize : GreetingSize) : String :=
  let subregionName := snakeName subregion.name
  let parentRegionNameForYAML := snakeName parentRegionName
  let greetingText := "Welcome to"
  let minY : ℤ := if useModernWorldHeight then -64 else 0
  let maxY : ℤ := if useModernWorldHeight then 320 else 255
  let flags :=
    if useGreetingsAndFarewells then
      let (g1, g2, f1, f2) :=
        if greetingSize = .large then
          ("§f" ++ greetingText ++ " " ++ subregion.name ++ " village", "§f",
           "§fLeaving " ++ subregion.name ++ " village", "§f")
        else
          ("§f", "§f" ++ greetingText ++ " " ++ subregion.name ++ " village",
           "§f", "§fLeaving " ++ subregion.name ++ " village")
      "      greeting-title: |-\n        " ++ g1 ++ "\n        " ++ g2 ++
        "\n      farewell-title: |-\n        " ++ f1 ++ "\n        " ++ f2 ++
        "\n      passthrough: allow"
    else "\x7bpassthrough: allow\x7d"
  "  " ++ subregionName ++ ":\n    type: cuboid\n    min-y: " ++ toString minY ++
    "\n    max-y: " ++ toString maxY ++ "\n    priority: 10\n    parent: " ++
    parentRegionNameForYAML ++ "\n    " ++
    (if useGreetingsAndFarewells then "flags:\n" ++ flags else "flags: " ++ flags) ++
    "\n    min: \x7bx: " ++ toString (subregion.x - subregion.radius) ++ ", y: " ++
    toString minY ++ ", z: " ++ toString (subregion.z - subregion.radius) ++
    "\x7d\n    max: \x7bx: " ++ toString (subregion.x + subregion.radius) ++ ", y: " ++
    toString maxY ++ ", z: " ++ toString (subregion.z + subregion.radius) ++ "\x7d"

/-! ### `generateRegionYAML` (polygonUtils.ts lines 42-153)

The source draws `deny-spawn` mob lists from `Math.random`; the sampled
list is injected here as the explicit `randomMobs` parameter (it is only
read when `randomMobSpawn` is true). -/

/-- Serialize one region as a WorldGuard `poly2d` block, optionally
followed by its 7x7 heart cuboid and its village subregion blocks. -/
def generateRegionYAML (region : Region) (includeVillages : Bool)
    (randomMobSpawn : Bool) (includeHeartRegions : Bool)
    (worldType : Option WorldType) (useModernWorldHeight : Bool)
    (useGreetingsAndFarewells : Bool) (greetingSize : GreetingSize)
    (includeChallengeLevelSubheading : Bool) (randomMobs : List String) : String :=
  let points := String.intercalate "\n" (region.points.map fun point =>
    "      - \x7bx: " ++ toString (jsRound point.x) ++ ", z: " ++
      toString (jsRound point.z) ++ "\x7d")
  let isMainRegion :=
    !strHasSub (lowerStr region.name) "spawn" &&
    !strHasSub (lowerStr region.name) "heart" &&
    !strHasSub (lowerStr region.name) "village"
  let greetingText := if worldType = some .nether then "You descend into" else "Welcome to"
  let flags :=
    if useGreetingsAndFarewells then
      match region.challengeLevel, isMainRegion with
      | some lvl, true =>
        -- Main regions with challenge levels get the multi-line format.
        let challengeColor :=
          if includeChallengeLevelSubheading && greetingSize = .large then
            getChallengeLevelColor lvl
          else "§f"
        let (g1, g2, f1, f2) :=
          if greetingSize = .large then
            ("§f" ++ greetingText ++ " " ++ region.name, challengeColor,
             "§fLeaving " ++ region.name, "§f")
          else
            ("§f", "§f" ++ greetingText ++ " " ++ region.name,
             "§f", "§fLeaving " ++ region.name)
        let base := "    greeting-title: |-\n      " ++ g1 ++ "\n      " ++ g2 ++
          "\n    farewell-title: |-\n      " ++ f1 ++ "\n      " ++ f2 ++
          "\n    passthrough: allow"
        if randomMobSpawn then
          base ++ "\n    deny-spawn: [" ++ String.intercalate "," randomMobs ++ "]"
        else base
      | _, _ =>
        -- Other regions (spawn, hearts, villages) keep the flow format.
        if randomMobSpawn then
          "\x7bgreeting-title: " ++ greetingText ++ " " ++ region.name ++
            ", farewell-title: Leaving " ++ region.name ++
            "., passthrough: allow, deny-spawn: [" ++
            String.intercalate "," randomMobs ++ "]\x7d"
        else
          "\x7bgreeting-title: " ++ greetingText ++ " " ++ region.name ++
            ", farewell-title: Leaving " ++ region.name ++ "., passthrough: allow\x7d"
    else
      if randomMobSpawn then
        "\x7bpassthrough: allow, deny-spawn: [" ++
          String.intercalate "," randomMobs ++ "]\x7d"
      else "\x7bpassthrough: allow\x7d"
  let regionNameForYAML := snakeName region.name
  let minY : ℤ := if useModernWorldHeight then -64 else 0
  let maxY : ℤ := if useModernWorldHeight then 320 else 255
  let yaml := "  " ++ regionNameForYAML ++ ":\n    type: poly2d\n    min-y: " ++
    toString minY ++ "\n    max-y: " ++ toString maxY ++
    "\n    priority: 0\n    flags:\n" ++
    (if useGreetingsAndFarewells && isMainRegion && region.challengeLevel.isSome then
      "  " ++ indentAfterNewlines flags
    else "      " ++ flags) ++
    "\n    points:\n" ++ points
  let yaml :=
    if includeHeartRegions then
      let regionCenter := calculateRegionCenter region
      let heartRegionName := "heart_of_" ++ snakeName region.name
      -- heartSize = 7; Math.floor(heartSize / 2) = 3.
      let heartFlags :=
        if useGreetingsAndFarewells then
          "\x7bgreeting-title: Heart of " ++ region.name ++
            ", build: deny, interact: allow, creeper-explosion: deny, other-explosion: deny, tnt: deny\x7d"
        else
          "\x7bbuild: deny, interact: allow, creeper-explosion: deny, other-explosion: deny, tnt: deny\x7d"
      yaml ++ "\n\n  " ++ heartRegionName ++ ":\n    type: cuboid\n    min: \x7bx: " ++
        toString (jsRound (regionCenter.x - 3)) ++ ", y: " ++ toString minY ++
        ", z: " ++ toString (jsRound (regionCenter.z - 3)) ++
        "\x7d\n    max: \x7bx: " ++ toString (jsRound (regionCenter.x + 3)) ++
        ", y: " ++ toString maxY ++ ", z: " ++ toString (jsRound (regionCenter.z + 3)) ++
        "\x7d\n    members: \x7b\x7d\n    owners: \x7b\x7d\n    flags: " ++
        heartFlags ++ "\n    priority: 10"
    else yaml
  if includeVillages && !region.subregions.isEmpty then
    yaml ++ "\n\n" ++ String.intercalate "\n\n" (region.subregions.map fun s =>
      generateSubregionYAML s region.name useModernWorldHeight
        useGreetingsAndFarewells greetingSize)
  else yaml

/-- Concatenation of a list of strings in order (the `forEach`-append
pattern of the serializers). -/
def strConcat (l : List String) : String :=
  l.foldr (· ++ ·) ""

/-! ### `generateAchievementsYAML` (exportUtils.ts lines 207-283)

The file-download and toast side effects are dropped; the embedding
returns the produced YAML text together with the `achievementCount` the
source reports through the toast. -/

/-- The region-discovery achievement entry for one region. -/
def regionDiscoveryBlock (worldType : Option WorldType) (region : Region) : String :=
  let regionKey := removeWs region.name
  let regionMessage :=
    if worldType = some .nether then "You discovered the nether region of " ++ region.name
    else "You discovered the region of " ++ region.name
  let regionDisplayName :=
    if worldType = some .nether then "Nether Region Discovery" else "Region Discovery"
  "  discover" ++ regionKey ++ ":\n    Goal: Discover " ++ region.name ++
    " Region\n    Message: " ++ regionMessage ++ "\n    Name: discover_" ++
    snakeName region.name ++ "\n    DisplayName: " ++ regionDisplayName ++
    "\n    Type: normal\n"

/-- The heart-discovery achievement entry for one region. -/
def heartDiscoveryBlock (worldType : Option WorldType) (region : Region) : String :=
  let regionKey := removeWs region.name
  let heartMessage :=
    if worldType = some .nether then "You discovered the nether " ++ snakeName region.name
    else "You discovered the Heart of " ++ region.name
  let heartDisplayName :=
    if worldType = some .nether then "Nether Heart Discovery" else "Heart Discovery"
  "  discoverHeartOf" ++ regionKey ++ ":\n    Goal: Discover the Heart of " ++
    region.name ++ "\n    Message: " ++ heartMessage ++ "\n    Name: discover_heart_of_" ++
    snakeName region.name ++ "\n    DisplayName: " ++ heartDisplayName ++
    "\n    Type: normal\n"

/-- The village-discovery achievement entry for one village subregion. -/
def villageDiscoveryBlock (subregion : Subregion) : String :=
  "  discover" ++ removeWs subregion.name ++ ":\n    Goal: Discover " ++
    subregion.name ++ " Village\n    Message: You discovered the village of " ++
    subregion.name ++ "\n    Name: discover_" ++ snakeName subregion.name ++
    "\n    DisplayName: Village Discovery\n    Type: normal\n"

/-- The per-region body of the source's outer `forEach` loop: append the
region entry and heart entry (bumping `achievementCount` once each), then
run the inner subregion loop. -/
def achievementsRegionStep (worldType : Option WorldType) (acc : String × ℕ)
    (region : Region) : String × ℕ :=
  let afterRegion :=
    (acc.1 ++ regionDiscoveryBlock worldType region ++
      heartDiscoveryBlock worldType region, acc.2 + 2)
  region.subregions.foldl (fun acc2 subregion =>
    if subregion.type = "village" then
      (acc2.1 ++ villageDiscoveryBlock subregion, acc2.2 + 1)
    else acc2) afterRegion

/-- The source's nested `forEach` loops, appending entry text and bumping
`achievementCount` (once per region entry, once per heart entry, once per
emitted village entry). -/
def generateAchievementsYAML (regions : List Region) (worldType : Option WorldType) :
    String × ℕ :=
  regions.foldl (achievementsRegionStep worldType) ("Commands:\n", 0)

/-- The list of achievement entries the export emits, in emission order:
region entry and heart entry per region, then one entry per village-typed
subregion of that region. -/
def achievementEntries (regions : List Region) (worldType : Option WorldType) :
    List String :=
  regions.flatMap fun region =>
    [regionDiscoveryBlock worldType region, heartDiscoveryBlock worldType region] ++
      (region.subregions.filter fun s => s.type = "village").map villageDiscoveryBlock

/-! ### `generateLevelledMobsRulesYAML` (exportUtils.ts lines 422-523)

`new Date().toISOString()` in the header comment is injected as the
explicit `dateStr` parameter; the download/toast side effects are dropped
and the embedding returns the YAML text with the reported `ruleCount`
(`none` models the early return that produces no artifact). -/

/-- The section-4 challenge-preset rule for one region at one level. -/
def challengePresetRule (region : Region) (lvl : ChallengeLevel) : String :=
  let presetName := "challenge-" ++ lowerStr lvl.text
  let regionName := snakeName region.name
  "- custom-rule: '" ++ region.name ++ " - " ++ lvl.text ++
    " Challenge'\n  is-enabled: true\n  use-preset: " ++ presetName ++
    "\n  conditions:\n    worlds: 'world'\n    worldguard-regions: '" ++
    regionName ++ "'\n\n"

/-- The source's section-4 loop (`regions.forEach { if (region.challengeLevel)
append rule; ruleCount++ }`), run from given accumulators. -/
def challengeRulesStep (acc : String × ℕ) (region : Region) : String × ℕ :=
  match region.challengeLevel with
  | some lvl => (acc.1 ++ challengePresetRule region lvl, acc.2 + 1)
  | none => acc

/-- Section 4 of the rules export, from empty accumulators. -/
def levelledMobsChallengeSection (regions : List Region) : String × ℕ :=
  regions.foldl challengeRulesStep ("", 0)

/-- Spawn coordinates as the rules generator sees them. -/
structure SpawnCoords where
  x : ℚ
  z : ℚ
  radius : Option ℚ
deriving DecidableEq, Repr

/-- The full rules export: header, spawn rule, heart-regions rule,
village-regions rule, then one challenge-preset rule per region with a set
`challengeLevel`; `none` when there are no regions and no spawn. -/
def generateLevelledMobsRulesYAML (regions : List Region) (worldName : String)
    (spawnCoordinates : Option SpawnCoords) (dateStr : String) :
    Option (String × ℕ) :=
  if regions.length = 0 ∧ spawnCoordinates = none then none
  else
    let header := "# LevelledMobs Rules Configuration\n# Generated for world: " ++
      worldName ++ "\n# Generated on: " ++ dateStr ++ "\n\n"
    let spawnSection :=
      if spawnCoordinates.isSome then
        "# Spawn region rule\n- custom-rule: 'Disable Leveling in Spawn Region'\n  is-enabled: true\n  use-preset: challenge-vanilla\n  conditions:\n    worlds: 'world'\n    worldguard-regions: 'spawn'\n\n"
      else ""
    let spawnCount := if spawnCoordinates.isSome then 1 else 0
    let heartRegions := regions.map fun region => "heart_of_" ++ snakeName region.name
    let heartSection :=
      if heartRegions.length > 0 then
        "# Heart regions rule\n- custom-rule: 'Disable Leveling in Heart Regions'\n  is-enabled: true\n  use-preset: challenge-vanilla\n  conditions:\n    worlds: 'world'\n    worldguard-regions:\n" ++
          strConcat (heartRegions.map fun r => "      - '" ++ r ++ "'\n") ++ "\n"
      else ""
    let heartCount := if heartRegions.length > 0 then 1 else 0
    let villageRegions := regions.flatMap fun region =>
      (region.subregions.filter fun s => s.type = "village").map fun s => snakeName s.name
    let villageSection :=
      if villageRegions.length > 0 then
        "# Village regions rule\n- custom-rule: 'Disable Leveling in Village Regions'\n  is-enabled: true\n  use-preset: challenge-vanilla\n  conditions:\n    worlds: 'world'\n    worldguard-regions:\n" ++
          strConcat (villageRegions.map fun r => "      - '" ++ r ++ "'\n") ++ "\n"
      else ""
    let villageCount := if villageRegions.length > 0 then 1 else 0
    let base := header ++ spawnSection ++ heartSection ++ villageSection ++
      "# Region-specific challenge presets\n"
    let baseCount := spawnCount + heartCount + villageCount
    some (regions.foldl challengeRulesStep (base, baseCount))

/-! ### `importMapData` / `validateImportData` (exportUtils.ts lines 366-397, 526-536)

The `FileReader` / `JSON.parse` boundary is embedded by taking the parsed
JSON value as input: `none` stands for a file whose contents failed to
read or to parse (both reject), `some j` for a file whose contents parsed
to the value `j`. -/

/-- Parsed JSON values (JavaScript `NaN`/`Infinity` cannot result from
`JSON.parse`, so `num` over `ℚ` is adequate). -/
inductive Json
  | null
  | bool (b : Bool)
  | num (q : ℚ)
  | str (s : String)
  | arr (elems : List Json)
  | obj (fields : List (String × Json))
deriving Repr

/-- Whether a JSON value is `null`. -/
def Json.isNull : Json → Bool
  | .null => true
  | _ => false

/-- Property access `data.k`: first matching key of an object, `none`
(JavaScript `undefined`) otherwise. -/
def Json.getField : Json → String → Option Json
  | .obj fields, k => (fields.find? fun f => f.1 = k).map Prod.snd
  | _, _ => none

/-- JavaScript truthiness of a JSON value. -/
def Json.truthy : Json → Bool
  | .null => false
  | .bool b => b
  | .num q => q ≠ 0
  | .str s => s ≠ ""
  | .arr _ => true
  | .obj _ => true

/-- Truthiness of `data.k` (a missing field is `undefined`, hence falsy). -/
def Json.fieldTruthy (data : Json) (k : String) : Bool :=
  match data.getField k with
  | some v => v.truthy
  | none => false

/-- Property assignment `data.k = v` on an object (replace the first
matching key, else append). -/
def Json.setField : Json → String → Json → Json
  | .obj fields, k, v =>
    if (fields.find? fun f => f.1 = k).isSome then
      .obj (fields.map fun f => if f.1 = k then (f.1, v) else f)
    else .obj (fields ++ [(k, v)])
  | j, _, _ => j

/-- `importMapData`: reject when the file failed to read/parse or when
`!data.version || !data.regions || !data.mapState`; default a falsy
`worldName` to `"world"`; otherwise resolve with the data. -/
def importMapData (input : Option Json) : Except String Json :=
  match input with
  | none => .error "Failed to parse import file"
  | some data =>
    if data.fieldTruthy "version" && data.fieldTruthy "regions" &&
        data.fieldTruthy "mapState" then
      if data.fieldTruthy "worldName" then .ok data
      else .ok (data.setField "worldName" (.str "world"))
    else .error "Failed to parse import file"

/-- JavaScript `typeof x === 'object'` (`null` and arrays included). -/
def Json.isObjectType : Json → Bool
  | .obj _ => true
  | .arr _ => true
  | .null => true
  | _ => false

/-- `validateImportData`: the structural check (object, string `version`,
array `regions`, non-null object `mapState`, string `exportDate`).
`importMapData` never invokes it. -/
def validateImportData (data : Json) : Bool :=
  data.isObjectType && !data.isNull &&
  (match data.getField "version" with | some (.str _) => true | _ => false) &&
  (match data.getField "regions" with | some (.arr _) => true | _ => false) &&
  (match data.getField "mapState" with
    | some ms => ms.isObjectType && !ms.isNull
    | none => false) &&
  (match data.getField "exportDate" with | some (.str _) => true | _ => false)

/-! ### The `hasSpawn` mutator (AdvancedPanel.tsx lines 482-494)

The checkbox `onChange` handler iterates the region-collection snapshot
and issues `updateRegion` calls against the evolving collection.
`updateRegion` itself lives in the regions context hook, outside the core
source files. -/

/-- Modelled from the spec: `updateRegion(id, {hasSpawn: v})` applies the
partial update to the region with the given id, leaving the rest of the
collection unchanged (the mutator that the data-model section says
enforces the spawn invariant). -/
def updateHasSpawn (regions : List Region) (regionId : String) (v : Bool) :
    List Region :=
  regions.map fun r => if r.id = regionId then { r with hasSpawn := v } else r

/-- The handler: when checking, first clear `hasSpawn` on every other
region that currently has it (iterating the snapshot), then set the
selected region's `hasSpawn` to the checkbox value. -/
def setHasSpawn (regions : List Region) (regionId : String) (checked : Bool) :
    List Region :=
  let afterClear :=
    if checked then
      regions.foldl (fun acc region =>
        if region.id ≠ regionId ∧ region.hasSpawn then
          updateHasSpawn acc region.id false
        else acc) regions
    else regions
  updateHasSpawn afterClear regionId checked

/-- Test fixture: a plain region with no villages. -/
def achRegionA : Region :=
  ⟨"a1", "Aldmere", [⟨0, 0⟩, ⟨10, 0⟩, ⟨10, 10⟩, ⟨0, 10⟩], none, some .Vanilla, false, []⟩
/-- Test fixture: a second region with no villages. -/
def achRegionB : Region :=
  ⟨"a2", "Briarfen", [⟨20, 0⟩, ⟨30, 0⟩, ⟨30, 10⟩, ⟨20, 10⟩], none, some .Gold, false, []⟩
/-- Test fixture: a village subregion. -/
def achVillage : Subregion :=
  ⟨"village_0", "Green Hollow", 50, 50, 64, "village", "plains", some "a1"⟩
/-- Test fixture: `achRegionA` carrying one village. -/
def achRegionAV : Region :=
  { achRegionA with subregions := [achVillage] }
/-- Test fixture: a region whose challenge level is the default Vanilla. -/
def lmRegionVanilla : Region :=
  ⟨"lm1", "Test Vale", [⟨0, 0⟩, ⟨10, 0⟩, ⟨10, 10⟩, ⟨0, 10⟩], none, some .Vanilla, false, []⟩
/-- Test fixture: a parsed document whose `regions` is not a sequence and
whose `mapState` lacks `exportDate`. -/
def badImportDoc : Json :=
  .obj [("version", .str "1.0.0"), ("regions", .str "not-a-sequence"),
    ("mapState", .obj [("scale", .num 1)])]
/-- Test fixture: a valid legacy document with no `worldName`. -/
def legacyImportDoc : Json :=
  .obj [("version", .str "1.0.0"), ("regions", .arr []),
    ("mapState", .obj [("exportDate", .str "2024-01-01")])]
/-- The composite per-element effect of the clearing loop: each snapshot
entry `s` with `s.id ≠ regionId ∧ s.hasSpawn` contributes one
`updateHasSpawn _ s.id false` pass over the collection. -/
def clearChain (regionId : String) : List Region → Region → Region
  | [], r => r
  | s :: rest, r =>
    clearChain regionId rest
      (if s.id ≠ regionId ∧ s.hasSpawn then
        (if r.id = s.id then { r with hasSpawn := false } else r)
      else r)
/-- Test fixture: a region currently holding the spawn flag. -/
def spawnRegionA : Region :=
  ⟨"s1", "Aldmere", [⟨0, 0⟩, ⟨10, 0⟩, ⟨10, 10⟩, ⟨0, 10⟩], none, some .Vanilla, true, []⟩
/-- Test fixture: the region the spawn flag is moved to. -/
def spawnRegionB : Region :=
  ⟨"s2", "Briarfen", [⟨20, 0⟩, ⟨30, 0⟩, ⟨30, 10⟩, ⟨20, 10⟩], none, some .Gold, false, []⟩
/-- Test fixture: the spec's `Test Vale` region with no center override. -/
def testVale : Region :=
  ⟨"tv", "Test Vale", [⟨0, 0⟩, ⟨10, 0⟩, ⟨10, 10⟩, ⟨0, 10⟩], none, some .Vanilla, false, []⟩
/-- The YAML `generateRegionYAML` produces for `testVale` with heart
regions on, modern world height, and greetings off. -/
def testValeYAML : String :=
  generateRegionYAML testVale true false true none true false .large false []
/-- Test fixture: a 5-point tent whose interior points lie on the chords
kept at small tolerance. -/
def simplifyTent : List Point := [⟨0, 0⟩, ⟨1, 2⟩, ⟨2, 4⟩, ⟨3, 2⟩, ⟨4, 0⟩]
/-- `r` lies on the boundary of the polygon: it is a point of some edge
segment (vertices included, as parameter-0 points; `p0` is the first
vertex, used by the source as the `getD` fallback). -/
def onEdge (polygon : List Point) (p0 r : Point) : Prop :=
  ∃ i, i < polygon.length ∧ ∃ t : ℚ, 0 ≤ t ∧ t ≤ 1 ∧
    r = segPoint (polygon.getD i p0) (polygon.getD ((i + 1) % polygon.length) p0) t


/-! ## Theorems -/

/-! ### Claim C9 — `resizeRegionPoints` identity and non-positive guard -/

/-- Claim C9: `resizeRegionPoints` is the identity at scale 1 — for every
point list and center, scaling by 1.0 returns the input pointwise — and a
guarded no-op at every non-positive scale factor. -/
theorem resizeRegionPoints_one_and_nonpos (points : List Point) (centerX centerZ : ℚ) :
    resizeRegionPoints points centerX centerZ 1 = points ∧
    ∀ s : ℚ, s ≤ 0 → resizeRegionPoints points centerX centerZ s = points := by
  constructor
  · unfold resizeRegionPoints
    split
    · rfl
    · have h : ∀ p ∈ points,
          (⟨centerX + (p.x - centerX) * 1, centerZ + (p.z - centerZ) * 1⟩ : Point) = p := by
        intro p _
        cases p with
        | mk px pz => simp only [Point.mk.injEq]; constructor <;> ring
      rw [List.map_congr_left h]
      exact List.map_id points
  · intro s hs
    unfold resizeRegionPoints
    rw [if_pos (Or.inr hs)]

/-- Witness for C9 at a concrete point list, center and scale. -/
theorem resizeRegionPoints_one_and_nonpos_witness :
    resizeRegionPoints [⟨1, 2⟩] 3 4 (-1) = [⟨1, 2⟩] :=
  (resizeRegionPoints_one_and_nonpos [⟨1, 2⟩] 3 4).2 (-1) (by norm_num)

/-! ### Claim C6 — densify/decimate round trip -/

/-- `keepEvenIdx` undoes the interleaving of `doubleAux`. -/
theorem keepEvenIdx_doubleAux : ∀ (l : List Point) (f : Point),
    keepEvenIdx (doubleAux l f) = l
  | [], _ => rfl
  | [_], _ => rfl
  | a :: b :: rest, f => by
    simpa [doubleAux, keepEvenIdx] using keepEvenIdx_doubleAux (b :: rest) f

/-- `doubleAux` doubles the vertex count. -/
theorem doubleAux_length : ∀ (l : List Point) (f : Point),
    (doubleAux l f).length = 2 * l.length
  | [], _ => rfl
  | [_], _ => rfl
  | a :: b :: rest, f => by
    simp [doubleAux, doubleAux_length (b :: rest) f]; omega

/-- Claim C6: for every polygon with at least 3 vertices,
`halvePolygonVertices (doublePolygonVertices P) = P` — same vertex count,
same vertex at every index. -/
theorem halve_double_roundtrip (points : List Point) (h : 3 ≤ points.length) :
    halvePolygonVertices (doublePolygonVertices points) = points := by
  match points, h with
  | p :: rest, h =>
    have hlen : ¬ (p :: rest).length < 2 := by
      simp only [List.length_cons] at h ⊢; omega
    unfold doublePolygonVertices
    rw [if_neg hlen]
    unfold halvePolygonVertices
    rw [doubleAux_length, keepEvenIdx_doubleAux]
    have h2 : ¬ 2 * (p :: rest).length ≤ 3 := by
      simp only [List.length_cons] at h ⊢; omega
    rw [if_neg h2]
    have h3 : ¬ (p :: rest).length < 3 := by omega
    simp only [if_neg h3]

/-- Witness for C6 at a concrete triangle. -/
theorem halve_double_roundtrip_witness :
    halvePolygonVertices (doublePolygonVertices [⟨0, 0⟩, ⟨10, 0⟩, ⟨10, 10⟩]) =
      [⟨0, 0⟩, ⟨10, 0⟩, ⟨10, 10⟩] :=
  halve_double_roundtrip [⟨0, 0⟩, ⟨10, 0⟩, ⟨10, 10⟩] (by norm_num)

/-! ### Claim C1 — `splitPolygon` rejection guard -/

unseal Rat.add Rat.mul Rat.inv Rat.sub in
/-- Counterexample to claim C1: splitting the unit square
`(0,0),(10,0),(10,10),(0,10)` by the vertical line `x = 5` produces two
2-point halves and returns them as-is — the `< 3` guard is not applied on
the vertical-line branch, so the result is not `[original, []]`. -/
theorem splitPolygon_vertical_no_guard :
    splitPolygon [⟨0, 0⟩, ⟨10, 0⟩, ⟨10, 10⟩, ⟨0, 10⟩] ⟨5, 0⟩ ⟨5, 10⟩ =
      [[⟨0, 0⟩, ⟨0, 10⟩], [⟨10, 0⟩, ⟨10, 10⟩]] ∧
    ((splitPolygon [⟨0, 0⟩, ⟨10, 0⟩, ⟨10, 10⟩, ⟨0, 10⟩] ⟨5, 0⟩ ⟨5, 10⟩).getD 0 []).length < 3 ∧
    splitPolygon [⟨0, 0⟩, ⟨10, 0⟩, ⟨10, 10⟩, ⟨0, 10⟩] ⟨5, 0⟩ ⟨5, 10⟩ ≠
      [[⟨0, 0⟩, ⟨10, 0⟩, ⟨10, 10⟩, ⟨0, 10⟩], []] := by decide

/-- Claim C1 amended: the whole-rejection guard holds whenever the input
already has fewer than 3 points, and on the general (non-vertical) branch
whenever either signed-side half has fewer than 3 points; the vertical-line
branch (`|dx| < 1e-10`) returns its partition without the guard. -/
theorem splitPolygon_reject_guard (points : List Point) (sp1 sp2 : Point) :
    (points.length < 3 → splitPolygon points sp1 sp2 = [points, []]) ∧
    (¬ |sp2.x - sp1.x| < 1 / 10000000000 →
      ((sideSplitLeft points (sp2.z - sp1.z) (-(sp2.x - sp1.x))
          (-((sp2.z - sp1.z) * sp1.x + -(sp2.x - sp1.x) * sp1.z))).length < 3 ∨
        (sideSplitRight points (sp2.z - sp1.z) (-(sp2.x - sp1.x))
          (-((sp2.z - sp1.z) * sp1.x + -(sp2.x - sp1.x) * sp1.z))).length < 3) →
      splitPolygon points sp1 sp2 = [points, []]) := by
  constructor
  · intro h
    unfold splitPolygon
    rw [if_pos h]
  · intro hv hsmall
    unfold splitPolygon
    by_cases h3 : points.length < 3
    · rw [if_pos h3]
    · rw [if_neg h3, if_neg hv, if_pos hsmall]

unseal Rat.add Rat.mul Rat.inv Rat.sub in
/-- Witness for C1 (amended) on the square split by its main diagonal: the
right half has a single point, so the split is rejected whole. -/
theorem splitPolygon_reject_guard_witness :
    splitPolygon [⟨0, 0⟩, ⟨10, 0⟩, ⟨10, 10⟩, ⟨0, 10⟩] ⟨0, 0⟩ ⟨10, 10⟩ =
      [[⟨0, 0⟩, ⟨10, 0⟩, ⟨10, 10⟩, ⟨0, 10⟩], []] :=
  (splitPolygon_reject_guard [⟨0, 0⟩, ⟨10, 0⟩, ⟨10, 10⟩, ⟨0, 10⟩] ⟨0, 0⟩ ⟨10, 10⟩).2
    (by norm_num)
    (Or.inr (by decide))

/-! ### Claim C8 — achievements entry count -/

/-- `strConcat` distributes over list append. -/
theorem strConcat_append (l1 l2 : List String) :
    strConcat (l1 ++ l2) = strConcat l1 ++ strConcat l2 := by
  induction l1 with
  | nil => simp [strConcat]
  | cons a l ih => simp [strConcat, List.foldr_cons] at ih ⊢
                   rw [ih, String.append_assoc]

/-- The inner subregion loop of the achievements export appends exactly the
village-typed entries and counts them. -/
theorem achievements_subregion_fold (subs : List Subregion) (acc : String × ℕ) :
    subs.foldl (fun acc2 subregion =>
        if subregion.type = "village" then
          (acc2.1 ++ villageDiscoveryBlock subregion, acc2.2 + 1)
        else acc2) acc =
      (acc.1 ++ strConcat ((subs.filter fun s => s.type = "village").map villageDiscoveryBlock),
       acc.2 + ((subs.filter fun s => s.type = "village").map villageDiscoveryBlock).length) := by
  induction subs generalizing acc with
  | nil => simp [strConcat]
  | cons s rest ih =>
    by_cases hs : s.type = "village"
    · simp only [List.foldl_cons, if_pos hs, ih, List.filter_cons, hs]
      simp [strConcat, String.append_assoc]
      omega
    · simp only [List.foldl_cons, if_neg hs, ih, List.filter_cons]
      simp [hs]

/-- The outer region loop of the achievements export, from any
accumulator: it appends exactly the entry list and adds its length to the
count. -/
theorem achievements_fold (worldType : Option WorldType) (regions : List Region) :
    ∀ acc : String × ℕ,
      regions.foldl (achievementsRegionStep worldType) acc =
        (acc.1 ++ strConcat (achievementEntries regions worldType),
         acc.2 + (achievementEntries regions worldType).length) := by
  induction regions with
  | nil => intro acc; simp [achievementEntries, strConcat]
  | cons r rest ih =>
    intro acc
    rw [List.foldl_cons]
    show rest.foldl (achievementsRegionStep worldType)
        (achievementsRegionStep worldType acc r) = _
    rw [ih]
    unfold achievementsRegionStep
    rw [achievements_subregion_fold]
    unfold achievementEntries
    rw [List.flatMap_cons, strConcat_append]
    simp only [List.cons_append, List.nil_append, strConcat, List.foldr_cons,
      List.length_append, List.length_cons, List.length_map, Prod.mk.injEq]
    constructor
    · simp only [String.append_assoc]
    · omega

/-- Unfolding of the entry list over a region cons. -/
theorem achievementEntries_cons (worldType : Option WorldType) (r : Region)
    (rest : List Region) :
    achievementEntries (r :: rest) worldType =
      ([regionDiscoveryBlock worldType r, heartDiscoveryBlock worldType r] ++
        (r.subregions.filter fun s => s.type = "village").map villageDiscoveryBlock) ++
        achievementEntries rest worldType := by
  unfold achievementEntries
  rw [List.flatMap_cons]

/-- Length of the emitted achievements entry list: two entries per region
plus one per village-typed subregion. -/
theorem achievementEntries_length (worldType : Option WorldType) (regions : List Region) :
    (achievementEntries regions worldType).length =
      2 * regions.length +
        (regions.map fun r => (r.subregions.filter fun s => s.type = "village").length).sum := by
  induction regions with
  | nil => simp [achievementEntries]
  | cons r rest ih =>
    rw [achievementEntries_cons, List.length_append, List.length_append, ih]
    simp only [List.length_cons, List.length_map, List.length_nil, List.map_cons,
      List.sum_cons]
    omega





/-- Claim C8: the achievements export emits exactly two entries per region
(region discovery and heart discovery) plus one per village subregion; the
produced YAML is the `Commands:` header followed by exactly those entries,
and the reported count equals the number of entries emitted — in
particular 4 entries for 2 regions with no villages and 5 with one
village. -/
theorem generateAchievementsYAML_entries (regions : List Region)
    (worldType : Option WorldType) :
    ((generateAchievementsYAML regions worldType).1 =
        "Commands:\n" ++ strConcat (achievementEntries regions worldType) ∧
      (generateAchievementsYAML regions worldType).2 =
        (achievementEntries regions worldType).length) ∧
    (achievementEntries regions worldType).length =
      2 * regions.length +
        (regions.map fun r => (r.subregions.filter fun s => s.type = "village").length).sum ∧
    (generateAchievementsYAML [achRegionA, achRegionB] none).2 = 4 ∧
    (generateAchievementsYAML [achRegionAV, achRegionB] none).2 = 5 := by
  have base : ∀ (rs : List Region) (wt : Option WorldType),
      generateAchievementsYAML rs wt =
        ("Commands:\n" ++ strConcat (achievementEntries rs wt),
         (achievementEntries rs wt).length) := by
    intro rs wt
    unfold generateAchievementsYAML
    rw [achievements_fold]
    simp
  refine ⟨⟨by rw [base], by rw [base]⟩, achievementEntries_length worldType regions, ?_, ?_⟩
  · rw [base, achievementEntries_length]
    decide
  · rw [base, achievementEntries_length]
    decide

/-! ### Claim C2 — LevelledMobs challenge-preset rules -/

/-- The section-4 loop, from any accumulator: it appends exactly one rule
per region whose `challengeLevel` is set and counts them. -/
theorem challengeRules_fold (regions : List Region) :
    ∀ acc : String × ℕ,
      regions.foldl challengeRulesStep acc =
        (acc.1 ++ strConcat (regions.filterMap fun r =>
            r.challengeLevel.map (challengePresetRule r)),
         acc.2 + (regions.filter fun r => r.challengeLevel.isSome).length) := by
  induction regions with
  | nil => intro acc; simp [strConcat]
  | cons r rest ih =>
    intro acc
    rw [List.foldl_cons]
    cases hc : r.challengeLevel with
    | none =>
      simp only [challengeRulesStep, hc]
      rw [ih]
      simp [List.filterMap_cons, List.filter_cons, hc]
    | some lvl =>
      simp only [challengeRulesStep, hc]
      rw [ih]
      simp only [List.filterMap_cons, List.filter_cons, hc, Option.map_some',
        Option.isSome_some, ite_true, strConcat, List.foldr_cons,
        Prod.mk.injEq, List.length_cons]
      constructor
      · simp [String.append_assoc]
      · omega


/-- Counterexample to claim C2: a region whose `challengeLevel` is the
default Vanilla still contributes a challenge-preset rule — the export for
one Vanilla region emits a section-4 rule (and reports 2 rules: the heart
rule plus the Vanilla challenge rule), where the claim predicts none. -/
theorem levelledMobs_vanilla_rule_emitted :
    (levelledMobsChallengeSection [lmRegionVanilla]).2 = 1 ∧
    ((generateLevelledMobsRulesYAML [lmRegionVanilla] "w" none "d").getD ("", 0)).2 = 2 ∧
    strHasSub ((generateLevelledMobsRulesYAML [lmRegionVanilla] "w" none "d").getD ("", 0)).1
      "- custom-rule: 'Test Vale - Vanilla Challenge'" = true := by
  set_option maxRecDepth 100000 in decide

/-- Claim C2 amended: in the mob-leveling rules export a challenge-preset
rule is emitted for a region if and only if its `challengeLevel` is set —
including the default Vanilla; section 4 is exactly one rule per region
with a set level, and the reported rule count is the spawn/heart/village
section count plus the number of regions with a set level. -/
theorem levelledMobs_challenge_rule_iff_set (regions : List Region) (worldName : String)
    (spawn : Option SpawnCoords) (dateStr : String) :
    levelledMobsChallengeSection regions =
      (strConcat (regions.filterMap fun r => r.challengeLevel.map (challengePresetRule r)),
       (regions.filter fun r => r.challengeLevel.isSome).length) ∧
    (regions ≠ [] →
      (generateLevelledMobsRulesYAML regions worldName spawn dateStr).map Prod.snd =
        some ((if spawn.isSome then 1 else 0) + 1 +
          (if 0 < (regions.flatMap fun region =>
              (region.subregions.filter fun s => s.type = "village").map fun s =>
                snakeName s.name).length then 1 else 0) +
          (regions.filter fun r => r.challengeLevel.isSome).length)) := by
  constructor
  · unfold levelledMobsChallengeSection
    rw [challengeRules_fold]
    simp
  · intro hne
    have hlen : regions.length ≠ 0 := by
      simpa [List.length_eq_zero] using hne
    have hguard : ¬ (regions.length = 0 ∧ spawn = none) := fun hcon => hlen hcon.1
    unfold generateLevelledMobsRulesYAML
    rw [if_neg hguard]
    simp only [challengeRules_fold, Option.map_some', Option.some.injEq, List.length_map]
    rw [if_pos (show regions.length > 0 from Nat.pos_of_ne_zero hlen)]

/-- Witness for C2 (amended) on the single Vanilla region: one heart rule
plus its challenge rule are reported. -/
theorem levelledMobs_challenge_rule_iff_set_witness :
    (generateLevelledMobsRulesYAML [lmRegionVanilla] "w" none "d").map Prod.snd =
      some 2 := by
  have h := (levelledMobs_challenge_rule_iff_set [lmRegionVanilla] "w" none "d").2
    (by simp)
  rw [h]
  decide

/-! ### Claim C3 — `importMapData` validation -/

/-- Find-after-replace: replacing the value at an existing key makes the
key read back the new value. -/
theorem find?_replaceKey (k : String) (v : Json) : ∀ fs : List (String × Json),
    (fs.find? fun f => f.1 = k).isSome →
    (((fs.map fun f => if f.1 = k then (f.1, v) else f).find?
      fun f => f.1 = k).map Prod.snd) = some v
  | [], h => by simp at h
  | a :: rest, h => by
    by_cases ha : a.1 = k
    · simp [ha]
    · have h' : (rest.find? fun f => f.1 = k).isSome := by
        simpa [List.find?_cons, ha] using h
      simpa [ha] using find?_replaceKey k v rest h'

/-- Find-after-append: appending a fresh key makes the key read back the
appended value. -/
theorem find?_appendKey (k : String) (v : Json) : ∀ fs : List (String × Json),
    (fs.find? fun f => f.1 = k) = none →
    (((fs ++ [(k, v)]).find? fun f => f.1 = k).map Prod.snd) = some v
  | [], _ => by simp
  | a :: rest, h => by
    have ha : ¬ a.1 = k := by
      intro hh
      simp [List.find?_cons, hh] at h
    have h' : (rest.find? fun f => f.1 = k) = none := by
      simpa [List.find?_cons, ha] using h
    simpa [ha] using find?_appendKey k v rest h'

/-- Setting a field on an object makes the field read back the set value. -/
theorem getField_setField (fs : List (String × Json)) (k : String) (v : Json) :
    ((Json.obj fs).setField k v).getField k = some v := by
  simp only [Json.setField]
  by_cases h : (fs.find? fun f => f.1 = k).isSome
  · rw [if_pos h]
    simp only [Json.getField]
    exact find?_replaceKey k v fs h
  · rw [if_neg h]
    simp only [Json.getField]
    exact find?_appendKey k v fs (Option.not_isSome_iff_eq_none.mp h)


/-- Counterexample to claim C3: `importMapData` resolves (does not reject)
a document whose `regions` field is not a sequence and whose `mapState`
carries no `exportDate` — those checks live only in `validateImportData`,
which `importMapData` never calls. -/
theorem importMapData_accepts_invalid_doc :
    importMapData (some badImportDoc) =
      .ok (.obj [("version", .str "1.0.0"), ("regions", .str "not-a-sequence"),
        ("mapState", .obj [("scale", .num 1)]), ("worldName", .str "world")]) ∧
    validateImportData badImportDoc = false :=
  ⟨rfl, rfl⟩

/-- Claim C3 amended: `importMapData` rejects exactly the inputs that fail
to read/parse or whose parsed value has a falsy `version`, `regions` or
`mapState` field (in particular a missing one); it does not check that
`regions` is a sequence nor that `mapState` carries an `exportDate`.  For
every accepted input with a falsy (e.g. absent) `worldName`, the resolved
document's `worldName` is `"world"`. -/
theorem importMapData_checks (j : Json) :
    importMapData none = Except.error "Failed to parse import file" ∧
    ((∃ e, importMapData (some j) = .error e) ↔
      ¬(j.fieldTruthy "version" = true ∧ j.fieldTruthy "regions" = true ∧
        j.fieldTruthy "mapState" = true)) ∧
    (∀ r : Json, importMapData (some j) = .ok r → j.fieldTruthy "worldName" = false →
      r.getField "worldName" = some (.str "world")) := by
  refine ⟨rfl, ?_, ?_⟩
  · simp only [importMapData]
    by_cases hb : (j.fieldTruthy "version" && j.fieldTruthy "regions" &&
        j.fieldTruthy "mapState") = true
    · rw [if_pos hb]
      simp only [Bool.and_eq_true] at hb
      constructor
      · intro ⟨e, he⟩
        by_cases hw : j.fieldTruthy "worldName" = true
        · rw [if_pos hw] at he; exact absurd he (by simp)
        · rw [if_neg hw] at he; exact absurd he (by simp)
      · intro hcon
        exact absurd ⟨hb.1.1, hb.1.2, hb.2⟩ hcon
    · rw [if_neg hb]
      simp only [Bool.and_eq_true] at hb
      constructor
      · intro _
        intro hcon
        exact hb ⟨⟨hcon.1, hcon.2.1⟩, hcon.2.2⟩
      · intro _
        exact ⟨_, rfl⟩
  · intro r hr hw
    simp only [importMapData] at hr
    by_cases hb : (j.fieldTruthy "version" && j.fieldTruthy "regions" &&
        j.fieldTruthy "mapState") = true
    · rw [if_pos hb] at hr
      rw [if_neg (by rw [hw]; exact Bool.false_ne_true)] at hr
      injection hr with hh
      subst hh
      simp only [Bool.and_eq_true] at hb
      cases j with
      | obj fs => exact getField_setField fs "worldName" (.str "world")
      | null => simp [Json.fieldTruthy, Json.getField] at hb
      | bool b => simp [Json.fieldTruthy, Json.getField] at hb
      | num q => simp [Json.fieldTruthy, Json.getField] at hb
      | str s => simp [Json.fieldTruthy, Json.getField] at hb
      | arr elems => simp [Json.fieldTruthy, Json.getField] at hb
    · rw [if_neg hb] at hr
      exact absurd hr (by simp)


/-- Witness for C3 (amended): importing the legacy document defaults its
`worldName` to `"world"`. -/
theorem importMapData_checks_witness :
    (legacyImportDoc.setField "worldName" (.str "world")).getField "worldName" =
      some (.str "world") :=
  (importMapData_checks legacyImportDoc).2.2
    (legacyImportDoc.setField "worldName" (.str "world")) rfl rfl

/-! ### Claim C5 — the spawn-uniqueness mutator -/


/-- Definitional unfolding of `clearChain` over a cons. -/
theorem clearChain_cons (regionId : String) (s : Region) (rest : List Region)
    (r : Region) :
    clearChain regionId (s :: rest) r =
      clearChain regionId rest
        (if s.id ≠ regionId ∧ s.hasSpawn then
          (if r.id = s.id then { r with hasSpawn := false } else r)
        else r) := rfl

/-- The clearing loop is the elementwise `clearChain` map. -/
theorem clear_fold_eq_map (regionId : String) : ∀ (l init : List Region),
    l.foldl (fun acc region =>
        if region.id ≠ regionId ∧ region.hasSpawn then
          updateHasSpawn acc region.id false
        else acc) init =
      init.map (clearChain regionId l) := by
  intro l
  induction l with
  | nil =>
    intro init
    rw [show clearChain regionId [] = fun r => r from funext fun r => rfl]
    exact (List.map_id' init).symm
  | cons s rest ih =>
    intro init
    rw [List.foldl_cons]
    by_cases hs : s.id ≠ regionId ∧ s.hasSpawn
    · rw [if_pos hs, ih]
      unfold updateHasSpawn
      rw [List.map_map]
      apply List.map_congr_left
      intro r _
      show clearChain regionId rest _ = clearChain regionId (s :: rest) r
      rw [clearChain_cons, if_pos hs]
    · rw [if_neg hs, ih]
      apply List.map_congr_left
      intro r _
      rw [clearChain_cons, if_neg hs]

/-- `clearChain` never touches ids. -/
theorem clearChain_id (regionId : String) : ∀ (l : List Region) (r : Region),
    (clearChain regionId l r).id = r.id
  | [], _ => rfl
  | s :: rest, r => by
    rw [clearChain_cons, clearChain_id regionId rest]
    split
    · split <;> rfl
    · rfl

/-- `clearChain` never sets `hasSpawn`; it can only clear it. -/
theorem clearChain_spawn_mono (regionId : String) : ∀ (l : List Region) (r : Region),
    (clearChain regionId l r).hasSpawn = true → r.hasSpawn = true
  | [], _ => id
  | s :: rest, r => by
    rw [clearChain_cons]
    intro h
    have h' := clearChain_spawn_mono regionId rest _ h
    revert h'
    split
    · split
      · intro hh; exact absurd hh (by simp)
      · exact id
    · exact id

/-- Every flagged snapshot entry with a foreign id gets cleared by the
chain on any element sharing its id. -/
theorem clearChain_clears (regionId : String) : ∀ (l : List Region) (r s : Region),
    s ∈ l → s.id ≠ regionId → s.hasSpawn = true → r.id = s.id →
    (clearChain regionId l r).hasSpawn = false
  | [], _, s, hmem, _, _, _ => absurd hmem (List.not_mem_nil s)
  | t :: rest, r, s, hmem, hne, hsp, hid => by
    rw [clearChain_cons]
    rcases List.mem_cons.mp hmem with heq | htail
    · subst heq
      rw [if_pos ⟨hne, by rw [hsp]⟩, if_pos hid]
      cases hcc : (clearChain regionId rest { r with hasSpawn := false }).hasSpawn
      · rfl
      · have := clearChain_spawn_mono regionId rest _ hcc
        simp at this
    · have hstep_id :
          (if t.id ≠ regionId ∧ t.hasSpawn then
            (if r.id = t.id then { r with hasSpawn := false } else r)
          else r).id = r.id := by
        split
        · split <;> rfl
        · rfl
      exact clearChain_clears regionId rest _ s htail hne hsp (hstep_id.trans hid)

/-- Claim C5: setting `hasSpawn = true` on an existing region through the
spawn mutator leaves exactly one region flagged — the selected one — in
any collection state (ids assumed unique, as the data model assigns them);
so the at-most-one-spawn invariant is preserved, and in particular it
holds when another region was previously flagged.  (`updateRegion` is
modelled from the spec as the by-id field patch.) -/
theorem setHasSpawn_unique (regions : List Region) (regionId : String)
    (hnd : (regions.map Region.id).Nodup) (hmem : ∃ B ∈ regions, B.id = regionId) :
    ((setHasSpawn regions regionId true).filter fun r => r.hasSpawn).length = 1 ∧
    (∀ r ∈ setHasSpawn regions regionId true, r.hasSpawn = true → r.id = regionId) := by
  have hform : setHasSpawn regions regionId true =
      regions.map fun r =>
        if (clearChain regionId regions r).id = regionId then
          { clearChain regionId regions r with hasSpawn := true }
        else clearChain regionId regions r := by
    show updateHasSpawn
        (regions.foldl (fun acc region =>
          if region.id ≠ regionId ∧ region.hasSpawn then
            updateHasSpawn acc region.id false
          else acc) regions) regionId true = _
    rw [clear_fold_eq_map]
    unfold updateHasSpawn
    rw [List.map_map]
    rfl
  have helem : ∀ r ∈ regions,
      ((if (clearChain regionId regions r).id = regionId then
          { clearChain regionId regions r with hasSpawn := true }
        else clearChain regionId regions r)).hasSpawn = decide (r.id = regionId) := by
    intro r hr
    by_cases hid : r.id = regionId
    · rw [if_pos ((clearChain_id regionId regions r).trans hid)]
      simp [hid]
    · rw [if_neg (by rw [clearChain_id regionId regions r]; exact hid)]
      rw [decide_eq_false hid]
      by_cases hsp : r.hasSpawn = true
      · exact clearChain_clears regionId regions r r hr hid hsp rfl
      · cases hc : (clearChain regionId regions r).hasSpawn
        · rfl
        · exact absurd (clearChain_spawn_mono regionId regions r hc) hsp
  have hcnt : regionId ∈ regions.map Region.id := by
    obtain ⟨B, hB, hBid⟩ := hmem
    exact hBid ▸ List.mem_map_of_mem Region.id hB
  constructor
  · rw [hform, ← List.countP_eq_length_filter, List.countP_map]
    have hcongr : ∀ r ∈ regions,
        ((fun x => x.hasSpawn) ∘ fun r =>
          if (clearChain regionId regions r).id = regionId then
            { clearChain regionId regions r with hasSpawn := true }
          else clearChain regionId regions r) r = true ↔
          ((fun s => s == regionId) ∘ Region.id) r = true := by
      intro r hr
      simp only [Function.comp_apply]
      rw [helem r hr]
      simp [beq_iff_eq]
    rw [List.countP_congr hcongr, ← List.countP_map]
    exact List.count_eq_one_of_mem hnd hcnt
  · intro r hrmem hspawn
    rw [hform] at hrmem
    obtain ⟨r0, hr0, rfl⟩ := List.mem_map.mp hrmem
    have h0 := helem r0 hr0
    rw [hspawn] at h0
    have hid0 : r0.id = regionId := of_decide_eq_true h0.symm
    rw [show ((if (clearChain regionId regions r0).id = regionId then
        { clearChain regionId regions r0 with hasSpawn := true }
      else clearChain regionId regions r0)).id =
        (clearChain regionId regions r0).id from by split <;> rfl]
    rw [clearChain_id regionId regions r0]
    exact hid0



/-- Witness for C5: moving the flag from `spawnRegionA` to `spawnRegionB`
leaves exactly one flagged region. -/
theorem setHasSpawn_unique_witness :
    ((setHasSpawn [spawnRegionA, spawnRegionB] "s2" true).filter
      fun r => r.hasSpawn).length = 1 :=
  (setHasSpawn_unique [spawnRegionA, spawnRegionB] "s2"
    (by decide) ⟨spawnRegionB, by decide, by decide⟩).1

/-! ### Claim C7 — end-to-end region export fixture -/



unseal Rat.add Rat.mul Rat.inv Rat.sub Rat.ofScientific in
/-- Claim C7: exporting `Test Vale` `(0,0),(10,0),(10,10),(0,10)` with
`includeHeartRegions`, `useModernWorldHeight`, and no greetings yields YAML
containing the key `test_vale` with `min-y: -64`, `max-y: 320`,
`priority: 0` and flags `{passthrough: allow}`, plus a sibling cuboid
`heart_of_test_vale` spanning x,z 2..8 — the 7x7 square centered on the
centroid `(5,5)`. -/
theorem testVale_yaml_contents :
    strHasSub testValeYAML "  test_vale:\n    type: poly2d" = true ∧
    strHasSub testValeYAML "    min-y: -64" = true ∧
    strHasSub testValeYAML "    max-y: 320" = true ∧
    strHasSub testValeYAML "    priority: 0" = true ∧
    strHasSub testValeYAML "    flags:\n      \x7bpassthrough: allow\x7d" = true ∧
    strHasSub testValeYAML "  heart_of_test_vale:\n    type: cuboid" = true ∧
    strHasSub testValeYAML "    min: \x7bx: 2, y: -64, z: 2\x7d" = true ∧
    strHasSub testValeYAML "    max: \x7bx: 8, y: 320, z: 8\x7d" = true := by
  set_option maxRecDepth 100000 in decide

/-! ### Claim C4 — simplification properties -/

/-- Raising the squared tolerance can only shrink the set of indices the
`rdp` pass keeps: whenever the higher tolerance splits at an index, the
lower one splits at the same index (the scan is tolerance-independent). -/
theorem rdpRun_subset (pts : List Point) (e1 e2 : ℚ) (h12 : e1 ≤ e2) :
    ∀ (fuel first last i : ℕ),
      i ∈ rdpRun pts e2 fuel first last → i ∈ rdpRun pts e1 fuel first last
  | 0, first, last, i => by simp [rdpRun]
  | fuel + 1, first, last, i => by
    intro hi
    unfold rdpRun at hi ⊢
    cases hsc : scanMax pts (pts.getD first ⟨0, 0⟩) (pts.getD last ⟨0, 0⟩)
        (List.range' (first + 1) (last - first - 1)) 0 none with
    | mk maxD idx =>
      rw [hsc] at hi
      cases idx with
      | none => exact hi
      | some j =>
        simp only at hi ⊢
        by_cases h2 : e2 < maxD
        · rw [if_pos h2] at hi
          rw [if_pos (lt_of_le_of_lt h12 h2)]
          rcases List.mem_cons.mp hi with rfl | hmem
          · exact List.mem_cons_self _ _
          · rcases List.mem_append.mp hmem with hl | hr
            · exact List.mem_cons_of_mem _ (List.mem_append_left _
                (rdpRun_subset pts e1 e2 h12 fuel first j i hl))
            · exact List.mem_cons_of_mem _ (List.mem_append_right _
                (rdpRun_subset pts e1 e2 h12 fuel j last i hr))
        · rw [if_neg h2] at hi
          exact absurd hi (List.not_mem_nil i)

/-- The keep flag is antitone in the squared tolerance. -/
theorem simplifyKeep_mono (pts : List Point) (e1 e2 : ℚ) (h12 : e1 ≤ e2) (n i : ℕ) :
    simplifyKeep pts e2 n i = true → simplifyKeep pts e1 n i = true := by
  unfold simplifyKeep
  intro h
  rcases Bool.or_eq_true_iff.mp h with h01 | hrun
  · exact Bool.or_eq_true_iff.mpr (Or.inl h01)
  · refine Bool.or_eq_true_iff.mpr (Or.inr ?_)
    rw [decide_eq_true_eq] at hrun ⊢
    exact rdpRun_subset pts e1 e2 h12 n 0 (n - 1) i hrun

/-- Filtering with a weaker predicate keeps at least as many elements. -/
theorem length_filter_mono {α : Type} : ∀ (l : List α) (p q : α → Bool),
    (∀ a, q a = true → p a = true) → (l.filter q).length ≤ (l.filter p).length
  | [], _, _, _ => le_refl _
  | a :: l, p, q, h => by
    rw [List.filter_cons, List.filter_cons]
    have ih := length_filter_mono l p q h
    by_cases hq : q a = true
    · rw [if_pos hq, if_pos (h a hq)]
      simpa using ih
    · rw [if_neg hq]
      split <;> simp <;> omega

/-- Membership of an in-range indexed point in a keep-filtered map. -/
theorem getD_mem_candidates (P : List Point) (t : ℚ) (i : ℕ) (hi : i < P.length)
    (hkeep : simplifyKeep P (max 0 t * max 0 t) P.length i = true) :
    P.getD i ⟨0, 0⟩ ∈ simplifyCandidates P t := by
  unfold simplifyCandidates
  exact List.mem_map_of_mem _
    (List.mem_filter.mpr ⟨List.mem_range.mpr hi, hkeep⟩)

/-- Claim C4 amended: (a) for tolerances `t1 ≤ t2` the result at `t2` has
at most as many vertices as the result at `t1` — except that when the
simplified result at `t2` would drop below 3 points, the function returns
the original input `P`, which can be longer; (b) at tolerance 0 an input
with more than 3 points retains its first and last point; (c) the result
always has at least 3 points or is exactly the original input. -/
theorem simplifyPolygonVertices_props (P : List Point) :
    (∀ t1 t2 : ℚ, t1 ≤ t2 →
      (simplifyPolygonVertices P t2).length ≤ (simplifyPolygonVertices P t1).length ∨
        simplifyPolygonVertices P t2 = P) ∧
    (3 < P.length →
      P.getD 0 ⟨0, 0⟩ ∈ simplifyPolygonVertices P 0 ∧
        P.getD (P.length - 1) ⟨0, 0⟩ ∈ simplifyPolygonVertices P 0) ∧
    (∀ t : ℚ, 3 ≤ (simplifyPolygonVertices P t).length ∨
      simplifyPolygonVertices P t = P) := by
  refine ⟨?_, ?_, ?_⟩
  · intro t1 t2 h12
    by_cases hP : P.length ≤ 3
    · right
      unfold simplifyPolygonVertices
      rw [if_pos hP]
    · have hee : max 0 t1 * max 0 t1 ≤ max 0 t2 * max 0 t2 :=
        mul_self_le_mul_self (le_max_left 0 t1) (max_le_max le_rfl h12)
      have hlen : (simplifyCandidates P t2).length ≤ (simplifyCandidates P t1).length := by
        unfold simplifyCandidates
        simp only [List.length_map]
        exact length_filter_mono _ _ _
          (fun i => simplifyKeep_mono P _ _ hee P.length i)
      unfold simplifyPolygonVertices
      simp only [if_neg hP]
      by_cases h2 : (simplifyCandidates P t2).length < 3
      · right
        rw [if_pos h2]
      · rw [if_neg h2]
        left
        by_cases h1 : (simplifyCandidates P t1).length < 3
        · rw [if_pos h1]
          calc (simplifyCandidates P t2).length
              ≤ (List.range P.length).length := by
                unfold simplifyCandidates
                simp only [List.length_map]
                exact List.length_filter_le _ _
            _ = P.length := List.length_range _
        · rw [if_neg h1]
          exact hlen
  · intro hP
    have hne : ¬ P.length ≤ 3 := by omega
    have hkeep0 : simplifyKeep P (max 0 (0 : ℚ) * max 0 0) P.length 0 = true := by
      unfold simplifyKeep
      simp
    have hkeepn : simplifyKeep P (max 0 (0 : ℚ) * max 0 0) P.length (P.length - 1) = true := by
      unfold simplifyKeep
      simp
    unfold simplifyPolygonVertices
    rw [if_neg hne]
    by_cases hlt : (simplifyCandidates P 0).length < 3
    · rw [if_pos hlt]
      constructor
      · have h0 : (0 : ℕ) < P.length := by omega
        rw [List.getD_eq_getElem?_getD, List.getElem?_eq_getElem h0]
        exact List.getElem_mem h0
      · have h0 : P.length - 1 < P.length := by omega
        rw [List.getD_eq_getElem?_getD, List.getElem?_eq_getElem h0]
        exact List.getElem_mem h0
    · rw [if_neg hlt]
      exact ⟨getD_mem_candidates P 0 0 (by omega) hkeep0,
        getD_mem_candidates P 0 (P.length - 1) (by omega) hkeepn⟩
  · intro t
    unfold simplifyPolygonVertices
    by_cases hP : P.length ≤ 3
    · right
      rw [if_pos hP]
    · by_cases hlt : (simplifyCandidates P t).length < 3
      · right
        rw [if_neg hP, if_pos hlt]
      · left
        rw [if_neg hP, if_neg hlt]
        omega


unseal Rat.add Rat.mul Rat.inv Rat.sub Rat.ofScientific in
/-- Counterexample to claim C4: the vertex count is not monotone in the
tolerance.  At tolerance 1 the tent simplifies to 3 vertices, but at the
larger tolerance 5 the simplified ring would have only its 2 endpoints, so
the fallback returns the original 5 points: `5 > 3`. -/
theorem simplify_tolerance_not_monotone :
    (1 : ℚ) ≤ 5 ∧
    (simplifyPolygonVertices simplifyTent 1).length = 3 ∧
    (simplifyPolygonVertices simplifyTent 5).length = 5 ∧
    ¬ (simplifyPolygonVertices simplifyTent 5).length ≤
        (simplifyPolygonVertices simplifyTent 1).length := by
  set_option maxRecDepth 100000 in decide

unseal Rat.add Rat.mul Rat.inv Rat.sub Rat.ofScientific in
/-- Witness for C4 (amended) at the tent fixture and tolerances 1 ≤ 5. -/
theorem simplifyPolygonVertices_props_witness :
    ((simplifyPolygonVertices simplifyTent 5).length ≤
        (simplifyPolygonVertices simplifyTent 1).length ∨
      simplifyPolygonVertices simplifyTent 5 = simplifyTent) ∧
    (simplifyTent.getD 0 ⟨0, 0⟩ ∈ simplifyPolygonVertices simplifyTent 0 ∧
      simplifyTent.getD (simplifyTent.length - 1) ⟨0, 0⟩ ∈
        simplifyPolygonVertices simplifyTent 0) ∧
    (3 ≤ (simplifyPolygonVertices simplifyTent 7).length ∨
      simplifyPolygonVertices simplifyTent 7 = simplifyTent) :=
  ⟨(simplifyPolygonVertices_props simplifyTent).1 1 5 (by norm_num),
   (simplifyPolygonVertices_props simplifyTent).2.1 (by decide),
   (simplifyPolygonVertices_props simplifyTent).2.2 7⟩

/-! ### Claim C10 — closest point on polygon edge -/

/-- `segPoint` at parameter 0 is the segment's start vertex. -/
theorem segPoint_zero (a b : Point) : segPoint a b 0 = a := by
  have ha : a = ⟨a.x, a.z⟩ := rfl
  rw [ha]
  unfold segPoint
  simp only [Point.mk.injEq]
  constructor <;> ring

/-- The clamped projection is a point of the segment (parameter in
`[0,1]`). -/
theorem closestOnSegment_isSeg (q a b : Point) :
    ∃ t : ℚ, 0 ≤ t ∧ t ≤ 1 ∧ closestOnSegment q a b = segPoint a b t := by
  unfold closestOnSegment
  by_cases hL : (b.x - a.x) * (b.x - a.x) + (b.z - a.z) * (b.z - a.z) = 0
  · refine ⟨0, le_rfl, by norm_num, ?_⟩
    rw [if_pos hL, segPoint_zero]
  · rw [if_neg hL]
    refine ⟨max 0 (min 1 (((q.x - a.x) * (b.x - a.x) + (q.z - a.z) * (b.z - a.z)) /
      ((b.x - a.x) * (b.x - a.x) + (b.z - a.z) * (b.z - a.z)))), le_max_left 0 _,
      max_le (by norm_num) (min_le_left 1 _), rfl⟩

/-- The clamped projection minimizes the (squared) distance over the whole
segment: the quadratic `distSq q (segPoint a b u)` in `u` attains its
minimum over `[0,1]` at the clamped stationary point. -/
theorem closestOnSegment_min (q a b : Point) (u : ℚ) (hu0 : 0 ≤ u) (hu1 : u ≤ 1) :
    distSq q (closestOnSegment q a b) ≤ distSq q (segPoint a b u) := by
  set dx := b.x - a.x with hdx
  set dz := b.z - a.z with hdz
  set L := dx * dx + dz * dz with hLdef
  set c := (q.x - a.x) * dx + (q.z - a.z) * dz with hcdef
  have hcos : closestOnSegment q a b =
      if L = 0 then a else segPoint a b (max 0 (min 1 (c / L))) := rfl
  have hf : ∀ v : ℚ, distSq q (segPoint a b v) = L * v ^ 2 - 2 * c * v + distSq q a := by
    intro v
    unfold distSq segPoint
    rw [hLdef, hcdef, hdx, hdz]
    ring
  by_cases hL : L = 0
  · have hL' : dx * dx + dz * dz = 0 := hL
    have hdx0 : dx = 0 :=
      mul_self_eq_zero.mp
        (le_antisymm (by nlinarith [mul_self_nonneg dz]) (mul_self_nonneg dx))
    have hdz0 : dz = 0 :=
      mul_self_eq_zero.mp
        (le_antisymm (by nlinarith [mul_self_nonneg dx]) (mul_self_nonneg dz))
    have hseg : segPoint a b u = a := by
      have h1 : segPoint a b u = ⟨a.x + u * dx, a.z + u * dz⟩ := rfl
      rw [h1, hdx0, hdz0]
      show (⟨a.x + u * 0, a.z + u * 0⟩ : Point) = a
      rw [show a.x + u * 0 = a.x from by ring, show a.z + u * 0 = a.z from by ring]
    rw [hcos, if_pos hL, hseg]
  · have hLpos : 0 < L :=
      lt_of_le_of_ne (add_nonneg (mul_self_nonneg dx) (mul_self_nonneg dz))
        (fun h => hL h.symm)
    rw [hcos, if_neg hL, hf, hf]
    have hc : c = (c / L) * L := by field_simp
    set w := c / L with hw
    rcases le_or_lt w 0 with hneg | hpos
    · rw [min_eq_right (hneg.trans (by norm_num)), max_eq_left hneg]
      nlinarith [mul_nonneg (mul_nonneg hLpos.le hu0) (by nlinarith : (0 : ℚ) ≤ u - 2 * w)]
    · rcases le_or_lt 1 w with hbig | hmid
      · rw [min_eq_left hbig, max_eq_right (by norm_num : (0 : ℚ) ≤ 1)]
        nlinarith [mul_nonneg (mul_nonneg hLpos.le (by linarith : (0 : ℚ) ≤ 1 - u))
          (by nlinarith : (0 : ℚ) ≤ 2 * w - u - 1)]
      · rw [min_eq_right hmid.le, max_eq_right hpos.le]
        nlinarith [mul_nonneg hLpos.le (sq_nonneg (u - w))]


/-- Unfolding of one loop iteration. -/
theorem closestStep_eq (point p0 : Point) (polygon : List Point) (best : Point)
    (i : ℕ) :
    closestStep point p0 polygon best i =
      if distSq point (closestOnSegment point (polygon.getD i p0)
          (polygon.getD ((i + 1) % polygon.length) p0)) < distSq point best then
        closestOnSegment point (polygon.getD i p0)
          (polygon.getD ((i + 1) % polygon.length) p0)
      else best := rfl

/-- Invariant of the scan fold: the best candidate stays on the boundary,
its distance never increases, and after processing an index list it is at
least as close as every point of every processed edge. -/
theorem closest_fold_spec (point p0 : Point) (polygon : List Point) :
    ∀ (l : List ℕ) (best : Point), (∀ j ∈ l, j < polygon.length) →
      onEdge polygon p0 best →
      onEdge polygon p0 (l.foldl (closestStep point p0 polygon) best) ∧
      distSq point (l.foldl (closestStep point p0 polygon) best) ≤
        distSq point best ∧
      (∀ j ∈ l, ∀ t : ℚ, 0 ≤ t → t ≤ 1 →
        distSq point (l.foldl (closestStep point p0 polygon) best) ≤
          distSq point (segPoint (polygon.getD j p0)
            (polygon.getD ((j + 1) % polygon.length) p0) t)) := by
  intro l
  induction l with
  | nil =>
    intro best _ hgood
    exact ⟨hgood, le_rfl, fun j hj => absurd hj (List.not_mem_nil j)⟩
  | cons i l' ih =>
    intro best hbound hgood
    rw [List.foldl_cons, closestStep_eq]
    set cand := closestOnSegment point (polygon.getD i p0)
      (polygon.getD ((i + 1) % polygon.length) p0) with hcand
    obtain ⟨s, hs0, hs1, hseg⟩ := closestOnSegment_isSeg point (polygon.getD i p0)
      (polygon.getD ((i + 1) % polygon.length) p0)
    have hcand_good : onEdge polygon p0 cand :=
      ⟨i, hbound i (List.mem_cons_self i l'), s, hs0, hs1, hcand.trans hseg⟩
    have hcand_min : ∀ t : ℚ, 0 ≤ t → t ≤ 1 →
        distSq point cand ≤ distSq point (segPoint (polygon.getD i p0)
          (polygon.getD ((i + 1) % polygon.length) p0) t) :=
      fun t ht0 ht1 => closestOnSegment_min point _ _ t ht0 ht1
    by_cases hlt : distSq point cand < distSq point best
    · rw [if_pos hlt]
      obtain ⟨g1, g2, g3⟩ := ih cand (fun j hj => hbound j (List.mem_cons_of_mem i hj))
        hcand_good
      refine ⟨g1, le_trans g2 hlt.le, ?_⟩
      intro j hj t ht0 ht1
      rcases List.mem_cons.mp hj with rfl | htail
      · exact le_trans g2 (hcand_min t ht0 ht1)
      · exact g3 j htail t ht0 ht1
    · rw [if_neg hlt]
      obtain ⟨g1, g2, g3⟩ := ih best (fun j hj => hbound j (List.mem_cons_of_mem i hj))
        hgood
      refine ⟨g1, g2, ?_⟩
      intro j hj t ht0 ht1
      rcases List.mem_cons.mp hj with rfl | htail
      · exact le_trans (le_trans g2 (not_lt.mp hlt)) (hcand_min t ht0 ht1)
      · exact g3 j htail t ht0 ht1

/-- Claim C10: `findClosestPointOnPolygonEdge` is defined exactly on
non-empty polygons (the embedding's `none` marks the empty polygon, where
the source would read `polygon[0]` out of bounds), and on every non-empty
polygon it returns a point on the polygon's boundary whose distance to the
query point is minimal over all edge segments (clamped projections and
vertices included). -/
theorem findClosestPointOnPolygonEdge_spec (point : Point) (polygon : List Point) :
    ((findClosestPointOnPolygonEdge point polygon).isSome ↔ polygon ≠ []) ∧
    (∀ p0 rest, polygon = p0 :: rest →
      ∃ r, findClosestPointOnPolygonEdge point polygon = some r ∧
        onEdge polygon p0 r ∧
        ∀ i < polygon.length, ∀ t : ℚ, 0 ≤ t → t ≤ 1 →
          distSq point r ≤ distSq point (segPoint (polygon.getD i p0)
            (polygon.getD ((i + 1) % polygon.length) p0) t)) := by
  constructor
  · cases polygon with
    | nil => simp [findClosestPointOnPolygonEdge]
    | cons p0 rest => simp [findClosestPointOnPolygonEdge]
  · intro p0 rest heq
    subst heq
    refine ⟨(List.range (p0 :: rest).length).foldl
      (closestStep point p0 (p0 :: rest)) p0, rfl, ?_⟩
    have hgood0 : onEdge (p0 :: rest) p0 p0 :=
      ⟨0, by simp, 0, le_rfl, by norm_num, by rw [segPoint_zero]; rfl⟩
    obtain ⟨g1, g2, g3⟩ := closest_fold_spec point p0 (p0 :: rest)
      (List.range (p0 :: rest).length) p0
      (fun j hj => List.mem_range.mp hj) hgood0
    exact ⟨g1, fun i hi t ht0 ht1 => g3 i (List.mem_range.mpr hi) t ht0 ht1⟩

/-- Witness for C10 on the standard square and an outside query point. -/
theorem findClosestPointOnPolygonEdge_spec_witness :
    ∃ r, findClosestPointOnPolygonEdge ⟨20, 5⟩
        [⟨0, 0⟩, ⟨10, 0⟩, ⟨10, 10⟩, ⟨0, 10⟩] = some r ∧
      onEdge [⟨0, 0⟩, ⟨10, 0⟩, ⟨10, 10⟩, ⟨0, 10⟩] ⟨0, 0⟩ r ∧
      ∀ i < ([⟨0, 0⟩, ⟨10, 0⟩, ⟨10, 10⟩, ⟨0, 10⟩] : List Point).length, ∀ t : ℚ,
        0 ≤ t → t ≤ 1 →
        distSq ⟨20, 5⟩ r ≤ distSq ⟨20, 5⟩
          (segPoint (([⟨0, 0⟩, ⟨10, 0⟩, ⟨10, 10⟩, ⟨0, 10⟩] : List Point).getD i ⟨0, 0⟩)
            (([⟨0, 0⟩, ⟨10, 0⟩, ⟨10, 10⟩, ⟨0, 10⟩] : List Point).getD
              ((i + 1) % ([⟨0, 0⟩, ⟨10, 0⟩, ⟨10, 10⟩, ⟨0, 10⟩] : List Point).length)
              ⟨0, 0⟩) t) :=
  (findClosestPointOnPolygonEdge_spec ⟨20, 5⟩
    [⟨0, 0⟩, ⟨10, 0⟩, ⟨10, 10⟩, ⟨0, 10⟩]).2 ⟨0, 0⟩ [⟨10, 0⟩, ⟨10, 10⟩, ⟨0, 10⟩] rfl

/-! ### Fuel adequacy of the `rdp` embedding -/

/-- The index `scanMax` reports is its starting candidate or one of the
scanned candidates. -/
theorem scanMax_some_mem (pts : List Point) (a b : Point) :
    ∀ (l : List ℕ) (best : ℚ) (bi : Option ℕ) (j : ℕ),
      (scanMax pts a b l best bi).2 = some j → bi = some j ∨ j ∈ l
  | [], best, bi, j => by
    intro h
    left
    simpa [scanMax] using h
  | i :: rest, best, bi, j => by
    intro h
    unfold scanMax at h
    by_cases hlt : best < perpDistSq (pts.getD i ⟨0, 0⟩) a b
    · rw [if_pos hlt] at h
      rcases scanMax_some_mem pts a b rest _ _ j h with heq | hmem
      · right
        rw [show i = j from Option.some.inj heq]
        exact List.mem_cons_self _ _
      · exact Or.inr (List.mem_cons_of_mem i hmem)
    · rw [if_neg hlt] at h
      rcases scanMax_some_mem pts a b rest best bi j h with heq | hmem
      · exact Or.inl heq
      · exact Or.inr (List.mem_cons_of_mem i hmem)

/-- With an empty index span the `rdp` pass keeps nothing, at any fuel. -/
theorem rdpRun_span_zero (pts : List Point) (e : ℚ) :
    ∀ (fuel first last : ℕ), last - first = 0 → rdpRun pts e fuel first last = [] := by
  intro fuel first last hspan
  cases fuel with
  | zero => rfl
  | succ f =>
    unfold rdpRun
    rw [hspan]
    rfl

/-- Any fuel at least the index span computes the same keep set: the
recursion always descends to strictly shorter spans, so the fuel embedding
is exact and the 0-fuel branch is unreachable from the top-level call. -/
theorem rdpRun_fuel_irrel (pts : List Point) (e : ℚ) :
    ∀ (f1 f2 first last : ℕ), last - first ≤ f1 → last - first ≤ f2 →
      rdpRun pts e f1 first last = rdpRun pts e f2 first last := by
  intro f1
  induction f1 with
  | zero =>
    intro f2 first last h1 _
    rw [rdpRun_span_zero pts e 0 first last (Nat.le_zero.mp h1),
      rdpRun_span_zero pts e f2 first last (Nat.le_zero.mp h1)]
  | succ f1' ih =>
    intro f2 first last h1 h2
    by_cases hspan : last - first = 0
    · rw [rdpRun_span_zero pts e _ first last hspan,
        rdpRun_span_zero pts e f2 first last hspan]
    · cases f2 with
      | zero => omega
      | succ f2' =>
        unfold rdpRun
        cases hsc : scanMax pts (pts.getD first ⟨0, 0⟩) (pts.getD last ⟨0, 0⟩)
            (List.range' (first + 1) (last - first - 1)) 0 none with
        | mk maxD idx =>
          cases idx with
          | none => rfl
          | some j =>
            have hjmem : j ∈ List.range' (first + 1) (last - first - 1) := by
              rcases scanMax_some_mem pts _ _ _ _ _ j
                  (by rw [hsc]) with heq | hmem
              · exact absurd heq (by simp)
              · exact hmem
            have hjb := List.mem_range'_1.mp hjmem
            have hj1 : j - first ≤ f1' := by omega
            have hj2 : last - j ≤ f1' := by omega
            have hj1' : j - first ≤ f2' := by omega
            have hj2' : last - j ≤ f2' := by omega
            simp only
            by_cases he : e < maxD
            · rw [if_pos he, if_pos he,
                ih f2' first j hj1 hj1', ih f2' j last hj2 hj2']
            · rw [if_neg he, if_neg he]
